import Mathlib

/-!
# cli-calendar: the terminal renderer and the token bootstrap of `main.go`

A shallow embedding of `main.go`.

* A Go `string` is its sequence of bytes (`len` counts bytes), so it is a
  `List Byte`.
* Go `int` values are `Int`.  The only additions are `i + w` with
  `i < len(s)` and `w` a terminal width minus four, far away from 2^63.
* Standard output is the list of the rows written to it, one entry per call
  of `Terminal.horizontal` and one per iteration of the loop of
  `Terminal.line`; the byte stream is the concatenation (`stdout`).  The
  program writes no line feed: a row fills one line of a terminal that is
  `width` cells wide.
* `log.Fatal` ends the run; a run is the rows written so far plus the way it
  ended (`Exit`).
* The packages `time`, `terminal`, `oauth2`, `os` and `json` are not part of
  the repository: what they return is a parameter of the embedded
  functions.
-/

namespace Calendar

/-! ## Strings -/

/-- One byte of a Go string. -/
abbrev Byte := UInt8

/-- The bytes of an ASCII literal of the source. -/
def ascii (s : String) : List Byte :=
  s.data.map fun c => UInt8.ofNat c.toNat

/-- The Go slice expression `s[lo:hi]`; `none` is the run-time panic for
bounds that are out of range. -/
def slice (s : List Byte) (lo hi : Int) : Option (List Byte) :=
  if 0 ≤ lo ∧ lo ≤ hi ∧ hi ≤ (s.length : Int) then
    some ((s.drop lo.toNat).take (hi - lo).toNat)
  else
    none

/-- A row written to standard output. -/
abbrev Row := List Byte

/-- The byte stream that a list of rows is on standard output. -/
def stdout (rows : List Row) : List Byte :=
  rows.flatten

/-! ## `Terminal` -/

/-- `type Terminal struct { width, height int }`. -/
structure Terminal where
  width : Int
  height : Int
deriving DecidableEq, Repr

/-- `func (t *Terminal) horizontal()`: a bar, `width - 2` dashes (none when
that is not positive), a bar. -/
def Terminal.horizontal (t : Terminal) : Row :=
  ascii "|" ++ List.replicate (t.width - 2).toNat (UInt8.ofNat 45) ++ ascii "|"

/-- The loop of `Terminal.line`, started at index `i` with `fuel` iterations
left.  `none` stands for a run that does not return: a slice panic, or a
loop that is still running when the fuel is used up. -/
def Terminal.lineLoop (w : Int) (s : List Byte) : Nat → Int → Option (List Row)
  | 0, i => if i < (s.length : Int) then none else some []
  | fuel + 1, i =>
    if i < (s.length : Int) then
      match slice s i (min (s.length : Int) (i + w)), slice s i (s.length : Int) with
      | some piece, some tail =>
        match Terminal.lineLoop w s fuel (i + w) with
        | some rows =>
          some ((ascii "| " ++ piece
            ++ List.replicate (w - (tail.length : Int)).toNat (UInt8.ofNat 32)
            ++ ascii " |") :: rows)
        | none => none
      | _, _ => none
    else
      some []

/-- `func (t *Terminal) line(str string, args ...interface{})` applied to the
formatted text `s`.  With a step `w ≥ 1` the loop ends within `len(s)`
iterations, which is the fuel given. -/
def Terminal.line (t : Terminal) (s : List Byte) : Option (List Row) :=
  Terminal.lineLoop (t.width - 4) s s.length 0

/-- `func pad(s string, n int) string`. -/
def pad (s : List Byte) (n : Int) : List Byte :=
  if (s.length : Int) ≥ n then s
  else s ++ (List.replicate (n - (s.length : Int)).toNat (ascii " ")).flatten

/-! ## What the program reads of a `time.Time` -/

/-- The readings `outputEvents` takes of a parsed `time.Time`, in the ranges
that package `time` documents: `Weekday()` is 0 (Sunday) to 6 (Saturday),
`Clock()` gives an hour in 0..23 and a minute and second in 0..59.  They are
the wall clock in the time's own location, which for a parsed timestamp
carries the UTC offset written in the text. -/
structure Time where
  weekday : Fin 7
  hour : Fin 24
  minute : Fin 60
  second : Fin 60
deriving DecidableEq, Repr

/-- `func (t Time) Weekday() Weekday`. -/
def Time.Weekday (t : Time) : Nat := t.weekday.val

/-- `func (t Time) Clock() (hour, min, sec int)`. -/
def Time.Clock (t : Time) : Nat × Nat × Nat :=
  (t.hour.val, t.minute.val, t.second.val)

/-- The decimal digits of a natural number. -/
def decimal (n : Nat) : List Byte :=
  (Nat.toDigits 10 n).map fun c => UInt8.ofNat c.toNat

/-- `longDayNames` of package `time`. -/
def longDayNames : List (List Byte) :=
  [ascii "Sunday", ascii "Monday", ascii "Tuesday", ascii "Wednesday",
   ascii "Thursday", ascii "Friday", ascii "Saturday"]

/-- `func (d Weekday) String() string`, which is what `%v` prints. -/
def Weekday.String (d : Nat) : List Byte :=
  match longDayNames.get? d with
  | some name => name
  | none => ascii "%!Weekday(" ++ decimal d ++ ascii ")"

/-- The verb `%02d` of package `fmt` on a number that is not negative: the
decimal digits, filled with zeros on the left up to two characters. -/
def fmt02d (n : Nat) : List Byte :=
  List.replicate (2 - (decimal n).length) (UInt8.ofNat 48) ++ decimal n

/-- The text `fmt.Sprintf("    %s %02d:%02d", pad(weekday, 10), h, m)` that
`outputEvents` hands to `Terminal.line` for a parsed start time. -/
def weekdayText (t : Time) : List Byte :=
  let (h, m, _) := t.Clock
  let weekday := Weekday.String t.Weekday
  ascii "    " ++ pad weekday 10 ++ ascii " " ++ fmt02d h ++ ascii ":" ++ fmt02d m

/-! ## `outputEvents` -/

/-- `calendar.EventDateTime`: the fields the program and its comments name. -/
structure EventDateTime where
  DateTime : List Byte
  Date : List Byte
deriving DecidableEq, Repr

/-- `calendar.Event`: the fields the program reads.  `Start` is a pointer in
the library; an event the API returns has one, and an event without is
outside this embedding. -/
structure Event where
  Summary : List Byte
  Start : EventDateTime
deriving DecidableEq, Repr

/-- How a run ends: it returns, `log.Fatal` ends the process with a message,
or it does not return (see `Terminal.lineLoop`). -/
inductive Exit where
  | ok
  | fatal (msg : String)
  | stuck
deriving DecidableEq, Repr

/-- A run: the rows written to standard output, and how the run ended. -/
structure Run where
  out : List Row
  exit : Exit
deriving DecidableEq, Repr

/-- `func newTerminal() Terminal`.  `size` is what `terminal.GetSize` returns:
`none` for an error, else the width and the height. -/
def newTerminal (size : Option (Int × Int)) : Except String Terminal :=
  match size with
  | none => .error "Error initializing terminal"
  | some (width, height) =>
    if width ≤ 6 then .error "Terminal too narrow"
    else .ok ⟨width, height⟩

/-- The `range` loop of `outputEvents` over the events that are left, `out`
being the rows written so far.  `unmarshal` is `time.Time.UnmarshalText`:
`none` for an error. -/
def eventsLoop (unmarshal : List Byte → Option Time) (term : Terminal) :
    List Event → List Row → Run
  | [], out => ⟨out, .ok⟩
  | item :: rest, out =>
    match term.line item.Summary with
    | none => ⟨out, .stuck⟩
    | some title =>
      match unmarshal item.Start.DateTime with
      | none => ⟨out ++ title, .fatal "Error with datetime recieved from google API"⟩
      | some t =>
        match term.line (weekdayText t) with
        | none => ⟨out ++ title, .stuck⟩
        | some clock =>
          eventsLoop unmarshal term rest (out ++ title ++ clock ++ [term.horizontal])

/-- `func outputEvents(events *calendar.Events)`, on `events.Items`. -/
def outputEvents (unmarshal : List Byte → Option Time) (size : Option (Int × Int))
    (items : List Event) : Run :=
  match newTerminal size with
  | .error msg => ⟨[], .fatal msg⟩
  | .ok term => eventsLoop unmarshal term items [term.horizontal]

/-! ## A reader of RFC 3339 timestamps

`time.Time.UnmarshalText` belongs to the Go library.  The functions above
take it as a parameter; the reader below follows the library's strict
RFC 3339 reader and serves to run them on concrete start texts. -/

/-- A decimal digit. -/
def isDigit (c : Byte) : Bool :=
  decide (48 ≤ c.toNat ∧ c.toNat ≤ 57)

/-- An unsigned decimal number within `lo..hi`, all of `s` being digits. -/
def parseUint (s : List Byte) (lo hi : Nat) : Option Nat :=
  if s.all isDigit then
    let x := s.foldl (fun x c => x * 10 + (c.toNat - 48)) 0
    if lo ≤ x ∧ x ≤ hi then some x else none
  else
    none

/-- Leap years of the Gregorian calendar. -/
def isLeap (year : Nat) : Bool :=
  decide (year % 4 = 0 ∧ (year % 100 ≠ 0 ∨ year % 400 = 0))

/-- The number of days of a month. -/
def daysIn (month year : Nat) : Nat :=
  if month = 2 then (if isLeap year then 29 else 28)
  else if month = 4 ∨ month = 6 ∨ month = 9 ∨ month = 11 then 30
  else 31

/-- The days of `year` that come before its month `month`. -/
def daysBefore (month year : Nat) : Nat :=
  ((List.range (month - 1)).map fun m => daysIn (m + 1) year).sum

/-- The days from 0000-01-01 to the given date. -/
def daysSinceYearZero (year month day : Nat) : Nat :=
  365 * year + ((year + 3) / 4 - (year + 99) / 100 + (year + 399) / 400)
    + daysBefore month year + (day - 1)

/-- The day of the week of a date, 0 being Sunday; 0000-01-01 is a
Saturday. -/
def weekdayOf (year month day : Nat) : Fin 7 :=
  ⟨(daysSinceYearZero year month day + 6) % 7, Nat.mod_lt _ (by decide)⟩

/-- The zone of a timestamp, after the seconds and their fraction: `Z`, or a
sign, two digits of hours, a colon and two digits of minutes. -/
def zoneOk (z : List Byte) : Bool :=
  if z = ascii "Z" then true
  else
    z.length = 6
      && (z.take 1 = ascii "+" || z.take 1 = ascii "-")
      && (parseUint ((z.drop 1).take 2) 0 23).isSome
      && (z.drop 3).take 1 = ascii ":"
      && (parseUint ((z.drop 4).take 2) 0 59).isSome

/-- What follows a fraction of a second `.d…`, or all of `z` when it does
not start with one. -/
def skipFraction (z : List Byte) : List Byte :=
  match z with
  | dot :: d :: rest =>
    if dot = UInt8.ofNat 46 ∧ isDigit d then rest.dropWhile isDigit else z
  | _ => z

/-- `time.Time.UnmarshalText` on an RFC 3339 timestamp
`YYYY-MM-DDTHH:MM:SS[.fff](Z|±HH:MM)`: the weekday of the written date and
the written time of day, `none` when the text is not well-formed. -/
def UnmarshalText (data : List Byte) : Option Time :=
  if data.length < 19 then none
  else
    match parseUint (data.take 4) 0 9999, parseUint ((data.drop 5).take 2) 1 12 with
    | some year, some month =>
      match parseUint ((data.drop 8).take 2) 1 (daysIn month year),
          parseUint ((data.drop 11).take 2) 0 23,
          parseUint ((data.drop 14).take 2) 0 59,
          parseUint ((data.drop 17).take 2) 0 59 with
      | some day, some hour, some min, some sec =>
        if h : hour < 24 ∧ min < 60 ∧ sec < 60 then
          if (data.drop 4).take 1 = ascii "-" ∧ (data.drop 7).take 1 = ascii "-"
              ∧ (data.drop 10).take 1 = ascii "T" ∧ (data.drop 13).take 1 = ascii ":"
              ∧ (data.drop 16).take 1 = ascii ":"
              ∧ zoneOk (skipFraction (data.drop 19)) then
            some ⟨weekdayOf year month day, ⟨hour, h.1⟩, ⟨min, h.2.1⟩, ⟨sec, h.2.2⟩⟩
          else none
        else none
      | _, _, _, _ => none
    | _, _ => none

/-! ## The token bootstrap: `getClient` -/

/-- `oauth2.Token`, the fields that go into `token.json`. -/
structure Token where
  AccessToken : String
  TokenType : String
  RefreshToken : String
  Expiry : String
deriving DecidableEq, Repr

/-- What the process meets outside itself while `getClient` runs. -/
structure World where
  /-- `os.Open(file)`: the content of the file, or the error. -/
  osOpen : String → Except String (List Byte)
  /-- `json.NewDecoder(f).Decode(tok)`: the token as far as it was filled,
  and the error if there is one. -/
  decode : List Byte → Token × Option String
  /-- `fmt.Scan(&authCode)`: the code typed, or the error. -/
  scan : Except String String
  /-- `config.Exchange(ctx, authCode)`: the token, or the error. -/
  exchange : String → Except String Token
  /-- `os.OpenFile(path, O_RDWR|O_CREATE|O_TRUNC, 0600)`: the error, if there
  is one. -/
  osOpenFile : String → Option String

/-- What the process does to the outside, in the order of the source. -/
inductive Effect where
  /-- `os.Open(file)` in `tokenFromFile`. -/
  | openRead (file : String)
  /-- `Decode(tok)` in `tokenFromFile`. -/
  | decode (file : String)
  /-- The first statement of `getTokenFromWeb`: the link is printed. -/
  | printAuthURL
  /-- `fmt.Scan(&authCode)`. -/
  | scan
  /-- `config.Exchange(ctx, authCode)`. -/
  | exchange (authCode : String)
  /-- The first statement of `saveToken`: the path is printed. -/
  | printSaving (path : String)
  /-- `os.OpenFile(path, ...)` in `saveToken`. -/
  | openTrunc (path : String)
  /-- `json.NewEncoder(f).Encode(token)`: the token is written to the file. -/
  | encode (path : String) (token : Option Token)
deriving DecidableEq, Repr

/-- A call returns a value, or `log.Fatalf` ends the process. -/
inductive Outcome (α : Type) where
  | ret (a : α)
  | fatal (msg : String)
deriving DecidableEq, Repr

/-- `func tokenFromFile(file string) (*oauth2.Token, error)`: the effects,
the token pointer and the error. -/
def tokenFromFile (w : World) (file : String) : List Effect × Option Token × Option String :=
  match w.osOpen file with
  | .error err => ([.openRead file], none, some err)
  | .ok content =>
    let (tok, err) := w.decode content
    ([.openRead file, .decode file], some tok, err)

/-- `func getTokenFromWeb(config *oauth2.Config) *oauth2.Token`. -/
def getTokenFromWeb (w : World) : List Effect × Outcome (Option Token) :=
  match w.scan with
  | .error err =>
    ([.printAuthURL, .scan], .fatal ("Unable to read authorization code: " ++ err))
  | .ok authCode =>
    match w.exchange authCode with
    | .error err =>
      ([.printAuthURL, .scan, .exchange authCode],
        .fatal ("Unable to retrieve token from web: " ++ err))
    | .ok tok => ([.printAuthURL, .scan, .exchange authCode], .ret (some tok))

/-- `func saveToken(path string, token *oauth2.Token)`. -/
def saveToken (w : World) (path : String) (token : Option Token) :
    List Effect × Outcome Unit :=
  match w.osOpenFile path with
  | some err =>
    ([.printSaving path, .openTrunc path], .fatal ("Unable to cache oauth token: " ++ err))
  | none => ([.printSaving path, .openTrunc path, .encode path token], .ret ())

/-- The `*http.Client` that `config.Client(ctx, tok)` builds: it carries the
token it was given. -/
structure Client where
  token : Option Token
deriving DecidableEq, Repr

/-- `func getClient(config *oauth2.Config) *http.Client`, the global `cfgDir`
being a parameter. -/
def getClient (w : World) (cfgDir : String) : List Effect × Outcome Client :=
  let tokFile := cfgDir ++ "token.json"
  match tokenFromFile w tokFile with
  | (read, tok, err) =>
    if err.isSome then
      match getTokenFromWeb w with
      | (web, .fatal msg) => (read ++ web, .fatal msg)
      | (web, .ret tok) =>
        match saveToken w tokFile tok with
        | (save, .fatal msg) => (read ++ web ++ save, .fatal msg)
        | (save, .ret _) => (read ++ web ++ save, .ret ⟨tok⟩)
    else
      (read, .ret ⟨tok⟩)

/-- The effects that write a token to a file. -/
def Effect.isWrite : Effect → Bool
  | .encode _ _ => true
  | _ => false

/-- The effects that belong to the interactive flow. -/
def Effect.isInteractive : Effect → Bool
  | .printAuthURL => true
  | .scan => true
  | .exchange _ => true
  | _ => false

/-- A first run: no token file, the user types `4/code`, the exchange
succeeds; the token file can be written if `writable`. -/
def firstRun (writable : Bool) : World where
  osOpen := fun _ => .error "no such file or directory"
  decode := fun _ => (⟨"", "", "", ""⟩, some "EOF")
  scan := .ok "4/code"
  exchange := fun code =>
    if code = "4/code" then .ok ⟨"access", "Bearer", "refresh", "2024-03-15T10:00:00Z"⟩
    else .error "invalid_grant"
  osOpenFile := fun _ => if writable then none else some "permission denied"

/-- A later run: the token file is there and decodes. -/
def laterRun : World where
  osOpen := fun _ => .ok (ascii "token")
  decode := fun _ => (⟨"access", "Bearer", "refresh", "2024-03-15T10:00:00Z"⟩, none)
  scan := .error "EOF"
  exchange := fun _ => .error "invalid_grant"
  osOpenFile := fun _ => some "permission denied"

/-! ## The rows a text is wrapped into, as the specification words them -/

/-- The piece `s[k*W : min(len(s), k*W + W)]` of a text, `W` being the width
of the column. -/
def piece (W : Nat) (s : List Byte) (k : Nat) : List Byte :=
  (s.drop (k * W)).take W

/-- A bordered line: bar and space, the content, spaces up to the width `W`
of the column, space and bar. -/
def bordered (W : Nat) (content : List Byte) : Row :=
  ascii "| " ++ content ++ List.replicate (W - content.length) (UInt8.ofNat 32) ++ ascii " |"

/-- The bordered lines of the first `n` pieces of a text. -/
def wrapRows (W : Nat) (s : List Byte) (n : Nat) : List Row :=
  (List.range n).map fun k => bordered W (piece W s k)

/-- The bordered lines of a whole text: `(L + W - 1) / W` of them, which is
`ceil(L / W)`. -/
def wrapAll (W : Nat) (s : List Byte) : List Row :=
  wrapRows W s ((s.length + W - 1) / W)

/-- The block of an event: the lines of its title, the lines of the weekday
and time of its start when that is well-formed, one separator. -/
def eventBlock (unmarshal : List Byte → Option Time) (term : Terminal) (e : Event) : List Row :=
  wrapAll (term.width - 4).toNat e.Summary
    ++ (match unmarshal e.Start.DateTime with
        | some t => wrapAll (term.width - 4).toNat (weekdayText t)
        | none => [])
    ++ [term.horizontal]

/-! ## Lemmas on `Terminal.line` -/

theorem ceilDiv_le_iff (L W k : Nat) (hW : 0 < W) : (L + W - 1) / W ≤ k ↔ L ≤ k * W := by
  rw [Nat.div_le_iff_le_mul_add_pred hW, Nat.mul_comm W k]
  omega

theorem natCeil_div_eq (L W : Nat) (hW : 0 < W) :
    ⌈(L : ℚ) / (W : ℚ)⌉₊ = (L + W - 1) / W := by
  apply eq_of_forall_ge_iff
  intro n
  have hWq : (0 : ℚ) < (W : ℚ) := by exact_mod_cast hW
  rw [Nat.ceil_le, ceilDiv_le_iff L W n hW, div_le_iff₀ hWq]
  exact_mod_cast Iff.rfl

theorem slice_eq_piece (W : Nat) (s : List Byte) (k : Nat) (hk : k * W < s.length) :
    slice s ((k * W : Nat) : Int) (min (s.length : Int) (((k * W : Nat) : Int) + (W : Int)))
      = some (piece W s k) := by
  unfold slice piece
  rw [if_pos (by omega)]
  congr 1
  rw [Int.toNat_ofNat]
  by_cases h : s.length ≤ k * W + W
  · have e : (min (s.length : Int) (((k * W : Nat) : Int) + (W : Int)) - ((k * W : Nat) : Int)).toNat
        = s.length - k * W := by omega
    rw [e, List.take_of_length_le (by rw [List.length_drop]),
      List.take_of_length_le (by rw [List.length_drop]; omega)]
  · have e : (min (s.length : Int) (((k * W : Nat) : Int) + (W : Int)) - ((k * W : Nat) : Int)).toNat
        = W := by omega
    rw [e]

theorem slice_tail (s : List Byte) (i : Nat) (hi : i < s.length) :
    slice s (i : Int) (s.length : Int) = some (s.drop i) := by
  unfold slice
  rw [if_pos (by omega)]
  congr 1
  rw [Int.toNat_ofNat]
  exact List.take_of_length_le (by rw [List.length_drop]; omega)

theorem lineLoop_eq (W : Nat) (hW : 0 < W) (s : List Byte) :
    ∀ fuel k : Nat, s.length ≤ (k + fuel) * W →
      Terminal.lineLoop (W : Int) s fuel ((k * W : Nat) : Int)
        = some ((List.range' k ((s.length + W - 1) / W - k)).map
            fun j => bordered W (piece W s j)) := by
  intro fuel
  induction fuel with
  | zero =>
    intro k h
    have hle : (s.length + W - 1) / W ≤ k := (ceilDiv_le_iff _ _ _ hW).2 (by simpa using h)
    have hlt : ¬ (((k * W : Nat) : Int) < (s.length : Int)) := by
      have : s.length ≤ k * W := by simpa using h
      omega
    rw [Terminal.lineLoop, if_neg hlt, Nat.sub_eq_zero_of_le hle]
    rfl
  | succ fuel ih =>
    intro k h
    by_cases hk : k * W < s.length
    · have hlt : ((k * W : Nat) : Int) < (s.length : Int) := by omega
      have hn : k < (s.length + W - 1) / W := by
        by_contra hc
        have := (ceilDiv_le_iff _ _ _ hW).1 (Nat.le_of_not_lt hc)
        omega
      have hnext : ((k * W : Nat) : Int) + (W : Int) = (((k + 1) * W : Nat) : Int) := by
        push_cast; ring
      have hrec := ih (k + 1) (by rw [show k + 1 + fuel = k + (fuel + 1) by omega]; exact h)
      have hpad : ((W : Int) - ((s.drop (k * W)).length : Int)).toNat
          = W - (piece W s k).length := by
        simp only [piece, List.length_take, List.length_drop]
        omega
      have hsplit : (s.length + W - 1) / W - k = ((s.length + W - 1) / W - (k + 1)) + 1 := by
        omega
      rw [Terminal.lineLoop, if_pos hlt, slice_eq_piece W s k hk, slice_tail s (k * W) hk]
      simp only []
      rw [hnext, hrec, hpad, hsplit, List.range'_succ]
      rfl
    · have hlt : ¬ (((k * W : Nat) : Int) < (s.length : Int)) := by omega
      have hle : (s.length + W - 1) / W ≤ k :=
        (ceilDiv_le_iff _ _ _ hW).2 (Nat.le_of_not_lt hk)
      rw [Terminal.lineLoop, if_neg hlt, Nat.sub_eq_zero_of_le hle]
      rfl

theorem line_eq_wrapRows (s : List Byte) (W : Nat) (hW : 0 < W) (height : Int) :
    Terminal.line ⟨(W : Int) + 4, height⟩ s = some (wrapRows W s ((s.length + W - 1) / W)) := by
  have h := lineLoop_eq W hW s s.length 0 (by
    rw [Nat.zero_add]; exact Nat.le_mul_of_pos_right _ hW)
  simp only [Nat.zero_mul, Nat.sub_zero] at h
  unfold Terminal.line wrapRows
  rw [show ((W : Int) + 4 - 4) = (W : Int) by omega, List.range_eq_range']
  exact h

theorem pieces_flatten_take (W : Nat) (s : List Byte) (n : Nat) :
    ((List.range n).map (piece W s)).flatten = s.take (n * W) := by
  induction n with
  | zero => simp
  | succ n ih =>
    rw [List.range_succ, List.map_append, List.flatten_append, ih, Nat.succ_mul, List.take_add]
    simp [piece]

theorem pieces_flatten (W : Nat) (hW : 0 < W) (s : List Byte) :
    ((List.range ((s.length + W - 1) / W)).map (piece W s)).flatten = s := by
  rw [pieces_flatten_take]
  exact List.take_of_length_le ((ceilDiv_le_iff _ _ _ hW).1 (Nat.le_refl _))

theorem piece_length_le (W : Nat) (s : List Byte) (k : Nat) : (piece W s k).length ≤ W := by
  simp [piece, List.length_take]

theorem bordered_length (W : Nat) (c : List Byte) (h : c.length ≤ W) :
    (bordered W c).length = W + 4 := by
  simp [bordered, ascii]
  omega

theorem line_eq_wrapAll (s : List Byte) (width height : Int) (hw : 6 < width) :
    Terminal.line ⟨width, height⟩ s = some (wrapAll (width - 4).toNat s) := by
  obtain ⟨W, hW⟩ := Int.eq_ofNat_of_zero_le (show 0 ≤ width - 4 by omega)
  have hpos : 0 < W := by omega
  have hwidth : width = (W : Int) + 4 := by omega
  subst hwidth
  rw [show ((W : Int) + 4 - 4).toNat = W by omega]
  exact line_eq_wrapRows s W hpos height

theorem wrapRows_length (W : Nat) (s : List Byte) (n : Nat) : (wrapRows W s n).length = n := by
  simp [wrapRows]

theorem mem_wrapRows (W : Nat) (s : List Byte) (n : Nat) (r : Row) (h : r ∈ wrapRows W s n) :
    ∃ k, k < n ∧ r = bordered W (piece W s k) := by
  simp only [wrapRows, List.mem_map, List.mem_range] at h
  obtain ⟨k, hk, rfl⟩ := h
  exact ⟨k, hk, rfl⟩

theorem piece_infix (W : Nat) (s : List Byte) (k : Nat) : piece W s k <:+: s :=
  (List.take_prefix _ _).isInfix.trans (List.drop_suffix _ _).isInfix

theorem eventsLoop_ok (unmarshal : List Byte → Option Time) (width height : Int)
    (hw : 6 < width) :
    ∀ (items : List Event) (out : List Row),
      (∀ e ∈ items, unmarshal e.Start.DateTime ≠ none) →
      eventsLoop unmarshal ⟨width, height⟩ items out
        = ⟨out ++ items.flatMap (eventBlock unmarshal ⟨width, height⟩), .ok⟩ := by
  intro items
  induction items with
  | nil => intro out _; simp [eventsLoop]
  | cons e rest ih =>
    intro out h
    have he := h e (List.mem_cons_self _ _)
    obtain ⟨t, ht⟩ := Option.ne_none_iff_exists'.1 he
    rw [eventsLoop, line_eq_wrapAll _ _ _ hw]
    simp only [ht]
    rw [line_eq_wrapAll _ _ _ hw]
    simp only []
    rw [ih _ (fun x hx => h x (List.mem_cons_of_mem _ hx))]
    simp [eventBlock, ht, List.flatMap_cons, List.append_assoc]

theorem eventsLoop_fatal (unmarshal : List Byte → Option Time) (width height : Int)
    (hw : 6 < width) (e : Event) (post : List Event)
    (he : unmarshal e.Start.DateTime = none) :
    ∀ (pre : List Event) (out : List Row),
      (∀ x ∈ pre, unmarshal x.Start.DateTime ≠ none) →
      eventsLoop unmarshal ⟨width, height⟩ (pre ++ e :: post) out
        = ⟨out ++ pre.flatMap (eventBlock unmarshal ⟨width, height⟩)
              ++ wrapAll (width - 4).toNat e.Summary,
            .fatal "Error with datetime recieved from google API"⟩ := by
  intro pre
  induction pre with
  | nil =>
    intro out _
    rw [List.nil_append, eventsLoop, line_eq_wrapAll _ _ _ hw]
    simp [he]
  | cons x rest ih =>
    intro out h
    have hx := h x (List.mem_cons_self _ _)
    obtain ⟨t, ht⟩ := Option.ne_none_iff_exists'.1 hx
    rw [List.cons_append, eventsLoop, line_eq_wrapAll _ _ _ hw]
    simp only [ht]
    rw [line_eq_wrapAll _ _ _ hw]
    simp only []
    rw [ih _ (fun y hy => h y (List.mem_cons_of_mem _ hy))]
    simp [eventBlock, ht, List.flatMap_cons, List.append_assoc]

theorem eventsLoop_exit (unmarshal : List Byte → Option Time) (width height : Int)
    (hw : 6 < width) :
    ∀ (items : List Event) (out : List Row),
      ((eventsLoop unmarshal ⟨width, height⟩ items out).exit
          = .fatal "Error with datetime recieved from google API"
        ↔ ∃ e ∈ items, unmarshal e.Start.DateTime = none)
      ∧ ((eventsLoop unmarshal ⟨width, height⟩ items out).exit = .ok
        ↔ ∀ e ∈ items, unmarshal e.Start.DateTime ≠ none) := by
  intro items
  induction items with
  | nil => intro out; simp [eventsLoop]
  | cons e rest ih =>
    intro out
    rw [eventsLoop, line_eq_wrapAll _ _ _ hw]
    cases ht : unmarshal e.Start.DateTime with
    | none => simp [ht]
    | some t =>
      simp only []
      rw [line_eq_wrapAll _ _ _ hw]
      simp only []
      obtain ⟨h1, h2⟩ := ih (out ++ wrapAll (width - 4).toNat e.Summary
        ++ wrapAll (width - 4).toNat (weekdayText t) ++ [Terminal.horizontal ⟨width, height⟩])
      rw [h1, h2]
      simp [ht]

theorem first_malformed (unmarshal : List Byte → Option Time) :
    ∀ items : List Event, (∃ e ∈ items, unmarshal e.Start.DateTime = none) →
      ∃ pre e post, items = pre ++ e :: post
        ∧ (∀ x ∈ pre, unmarshal x.Start.DateTime ≠ none)
        ∧ unmarshal e.Start.DateTime = none := by
  intro items
  induction items with
  | nil => intro h; simp at h
  | cons x rest ih =>
    intro h
    cases hx : unmarshal x.Start.DateTime with
    | none => exact ⟨[], x, rest, rfl, by simp, hx⟩
    | some t =>
      obtain ⟨e, hmem, he⟩ := h
      rcases List.mem_cons.1 hmem with rfl | hmem
      · rw [hx] at he; cases he
      · obtain ⟨pre, e', post, hsplit, hpre, he'⟩ := ih ⟨e, hmem, he⟩
        refine ⟨x :: pre, e', post, by rw [hsplit]; rfl, ?_, he'⟩
        intro y hy
        rcases List.mem_cons.1 hy with rfl | hy
        · rw [hx]; simp
        · exact hpre y hy

theorem line_rows (s : List Byte) (width height : Int) (hw : 6 < width) :
    Terminal.line ⟨width, height⟩ s = some (wrapAll (width - 4).toNat s)
      ∧ (wrapAll (width - 4).toNat s).length = ⌈(s.length : ℚ) / ((width - 4 : Int) : ℚ)⌉₊
      ∧ (wrapAll (width - 4).toNat s).length = (s.length + (width - 4).toNat - 1) / (width - 4).toNat := by
  refine ⟨line_eq_wrapAll s width height hw, ?_, wrapRows_length _ _ _⟩
  obtain ⟨W, hW⟩ := Int.eq_ofNat_of_zero_le (show 0 ≤ width - 4 by omega)
  have hpos : 0 < W := by omega
  rw [hW, Int.toNat_ofNat, Int.cast_natCast, natCeil_div_eq _ _ hpos]
  exact wrapRows_length _ _ _

theorem mem_wrapAll (W : Nat) (s : List Byte) (r : Row) (h : r ∈ wrapAll W s) :
    ∃ content, content <:+: s ∧ content.length ≤ W ∧ r = bordered W content := by
  obtain ⟨k, _, rfl⟩ := mem_wrapRows _ _ _ _ h
  exact ⟨piece W s k, piece_infix W s k, piece_length_le W s k, rfl⟩

theorem wrapAll_length_pos (W : Nat) (hW : 0 < W) (s : List Byte) (hs : s ≠ []) :
    1 ≤ (wrapAll W s).length := by
  rw [wrapAll, wrapRows_length]
  by_contra hc
  have h0 : (s.length + W - 1) / W ≤ 0 := by omega
  have := (ceilDiv_le_iff _ _ _ hW).1 h0
  have hlen : 0 < s.length := List.length_pos.2 hs
  omega

theorem weekday_field (d : Fin 7) :
    longDayNames.get? d.val = some (Weekday.String d.val)
      ∧ (Weekday.String d.val).length < 10
      ∧ pad (Weekday.String d.val) 10
          = Weekday.String d.val
            ++ List.replicate (10 - (Weekday.String d.val).length) (UInt8.ofNat 32)
      ∧ (pad (Weekday.String d.val) 10).length = 10 := by
  revert d
  decide

theorem fmt02d_hour (h : Fin 24) :
    fmt02d h.val = [UInt8.ofNat (48 + h.val / 10), UInt8.ofNat (48 + h.val % 10)] := by
  revert h
  decide

theorem fmt02d_minute (m : Fin 60) :
    fmt02d m.val = [UInt8.ofNat (48 + m.val / 10), UInt8.ofNat (48 + m.val % 10)] := by
  revert m
  decide

theorem weekdayText_length (t : Time) : (weekdayText t).length = 20 := by
  have h4 : (ascii "    ").length = 4 := by decide
  have h1 : (ascii " ").length = 1 := by decide
  have hc : (ascii ":").length = 1 := by decide
  simp only [weekdayText, Time.Clock, Time.Weekday, List.length_append, h4, h1, hc,
    (weekday_field t.weekday).2.2.2, fmt02d_hour, fmt02d_minute, List.length_cons,
    List.length_nil]

theorem bordered_ne_horizontal (W : Nat) (c : List Byte) (term : Terminal)
    (hw : 6 < term.width) : bordered W c ≠ term.horizontal := by
  obtain ⟨m, hm⟩ : ∃ m : Nat, (term.width - 2).toNat = m + 1 := ⟨(term.width - 3).toNat, by omega⟩
  intro h
  have h2 := congrArg (fun l => l.get? 1) h
  simp only [bordered, Terminal.horizontal, hm, List.replicate_succ] at h2
  have e1 : ascii "| " = [UInt8.ofNat 124, UInt8.ofNat 32] := by decide
  have e2 : ascii "|" = [UInt8.ofNat 124] := by decide
  rw [e1, e2] at h2
  simp at h2

theorem count_horizontal_wrapAll (W : Nat) (s : List Byte) (term : Terminal)
    (hw : 6 < term.width) : (wrapAll W s).count term.horizontal = 0 := by
  rw [List.count_eq_zero]
  intro hmem
  obtain ⟨c, _, _, hc⟩ := mem_wrapAll _ _ _ hmem
  exact bordered_ne_horizontal W c term hw hc.symm

theorem count_horizontal_blocks (unmarshal : List Byte → Option Time) (term : Terminal)
    (hw : 6 < term.width) (items : List Event) :
    (items.flatMap (eventBlock unmarshal term)).count term.horizontal = items.length := by
  induction items with
  | nil => simp
  | cons e rest ih =>
    rw [List.flatMap_cons, List.count_append, ih, eventBlock, List.count_append,
      List.count_append, count_horizontal_wrapAll _ _ _ hw]
    cases unmarshal e.Start.DateTime with
    | none => simp; omega
    | some t => simp [count_horizontal_wrapAll _ _ _ hw]; omega

theorem outputEvents_wide (unmarshal : List Byte → Option Time) (width height : Int)
    (hw : 6 < width) (items : List Event) :
    outputEvents unmarshal (some (width, height)) items
      = eventsLoop unmarshal ⟨width, height⟩ items [Terminal.horizontal ⟨width, height⟩] := by
  simp [outputEvents, newTerminal, not_le.2 hw]

/-! ## The claims on `Terminal.line` -/

/-- C1: for every text `s` and every width above 6, with `W = width - 4`,
`Terminal.line` writes exactly `ceil(len(s) / W)` bordered lines; line `k`
holds the piece `s[k*W : min(len(s), k*W + W)]` between the opening border
and the padding, and the pieces, in order, concatenate to `s`. -/
theorem line_rows_ceil_and_cover (s : List Byte) (width height : Int) (hw : 6 < width) :
    ∃ rows, Terminal.line ⟨width, height⟩ s = some rows
      ∧ rows.length = ⌈(s.length : ℚ) / ((width - 4 : Int) : ℚ)⌉₊
      ∧ rows = (List.range rows.length).map
          (fun k => ascii "| " ++ piece (width - 4).toNat s k
            ++ List.replicate ((width - 4).toNat - (piece (width - 4).toNat s k).length)
                (UInt8.ofNat 32)
            ++ ascii " |")
      ∧ ((List.range rows.length).map (piece (width - 4).toNat s)).flatten = s := by
  obtain ⟨h1, h2, h3⟩ := line_rows s width height hw
  refine ⟨_, h1, h2, ?_, ?_⟩
  · rw [h3]; rfl
  · rw [h3]
    exact pieces_flatten _ (by omega) s

/-- The scenario of the specification, a terminal 40 wide; the title has 53
characters, which gives a line of 36 and a line of 17 with 19 spaces. -/
theorem line_rows_ceil_and_cover_witness :
    (6 : Int) < 40 ∧
    (∃ rows, Terminal.line ⟨40, 24⟩
        (ascii "Team Sync Meeting About Q3 Planning And Budget Review") = some rows
      ∧ rows.length = ⌈(((ascii "Team Sync Meeting About Q3 Planning And Budget Review").length : ℕ) : ℚ)
          / (((40 : Int) - 4 : Int) : ℚ)⌉₊
      ∧ rows = (List.range rows.length).map
          (fun k => ascii "| "
            ++ piece ((40 : Int) - 4).toNat
                (ascii "Team Sync Meeting About Q3 Planning And Budget Review") k
            ++ List.replicate (((40 : Int) - 4).toNat - (piece ((40 : Int) - 4).toNat
                (ascii "Team Sync Meeting About Q3 Planning And Budget Review") k).length)
                (UInt8.ofNat 32)
            ++ ascii " |")
      ∧ ((List.range rows.length).map (piece ((40 : Int) - 4).toNat
          (ascii "Team Sync Meeting About Q3 Planning And Budget Review"))).flatten
          = ascii "Team Sync Meeting About Q3 Planning And Budget Review")
      ∧ Terminal.line ⟨40, 24⟩ (ascii "Team Sync Meeting About Q3 Planning And Budget Review")
          = some [ascii "| Team Sync Meeting About Q3 Planning  |",
                  ascii "| And Budget Review                    |"] :=
  ⟨by decide, line_rows_ceil_and_cover _ 40 24 (by decide), by decide⟩

/-- C2: for every text `s` and every width above 6, every line that
`Terminal.line` writes has exactly `width` characters: bar and space, at most
`width - 4` characters of `s`, spaces only, space and bar. -/
theorem line_rows_have_width (s : List Byte) (width height : Int) (hw : 6 < width) :
    ∃ rows, Terminal.line ⟨width, height⟩ s = some rows
      ∧ ∀ r ∈ rows, (r.length : Int) = width
        ∧ ∃ (content : List Byte) (n : Nat), content <:+: s
          ∧ (content.length : Int) ≤ width - 4
          ∧ r = ascii "| " ++ content ++ List.replicate n (UInt8.ofNat 32) ++ ascii " |" := by
  refine ⟨_, line_eq_wrapAll s width height hw, ?_⟩
  intro r hr
  obtain ⟨content, hinf, hlen, rfl⟩ := mem_wrapAll _ _ _ hr
  refine ⟨?_, content, _, hinf, by omega, rfl⟩
  rw [bordered_length _ _ hlen]
  omega

/-- Two lines of seven characters for a text of four on a terminal 7 wide. -/
theorem line_rows_have_width_witness :
    (6 : Int) < 7 ∧
    ∃ rows, Terminal.line ⟨7, 24⟩ (ascii "abcd") = some rows
      ∧ ∀ r ∈ rows, (r.length : Int) = 7
        ∧ ∃ (content : List Byte) (n : Nat), content <:+: ascii "abcd"
          ∧ (content.length : Int) ≤ 7 - 4
          ∧ r = ascii "| " ++ content ++ List.replicate n (UInt8.ofNat 32) ++ ascii " |" :=
  ⟨by decide, line_rows_have_width (ascii "abcd") 7 24 (by decide)⟩

/-- C9, as amended: for every title that is not empty and every width above
6, `Terminal.line` writes one line or more, each holding up to `width - 4`
characters of the title; for the empty title it writes no line. -/
theorem title_rows_nonempty (s : List Byte) (width height : Int) (hw : 6 < width) :
    ∃ rows, Terminal.line ⟨width, height⟩ s = some rows
      ∧ (s ≠ [] → 1 ≤ rows.length)
      ∧ (s = [] → rows = [])
      ∧ ∀ r ∈ rows, ∃ content : List Byte, content <:+: s
          ∧ (content.length : Int) ≤ width - 4
          ∧ r = bordered (width - 4).toNat content := by
  refine ⟨_, line_eq_wrapAll s width height hw, ?_, ?_, ?_⟩
  · exact wrapAll_length_pos _ (by omega) s
  · rintro rfl
    apply List.eq_nil_of_length_eq_zero
    rw [wrapAll, wrapRows_length]
    exact Nat.div_eq_of_lt (by simp; omega)
  · intro r hr
    obtain ⟨content, hinf, hlen, rfl⟩ := mem_wrapAll _ _ _ hr
    exact ⟨content, hinf, by omega, rfl⟩

/-- A title of one character gives one line, on a terminal 80 wide. -/
theorem title_rows_nonempty_witness :
    (6 : Int) < 80 ∧
    ∃ rows, Terminal.line ⟨80, 24⟩ (ascii "A") = some rows
      ∧ (ascii "A" ≠ [] → 1 ≤ rows.length)
      ∧ (ascii "A" = [] → rows = [])
      ∧ ∀ r ∈ rows, ∃ content : List Byte, content <:+: ascii "A"
          ∧ (content.length : Int) ≤ 80 - 4
          ∧ r = bordered ((80 : Int) - 4).toNat content :=
  ⟨by decide, title_rows_nonempty (ascii "A") 80 24 (by decide)⟩

/-- C9 as stated fails: for the empty title, on a terminal 80 wide,
`Terminal.line` returns and has written no line at all. -/
theorem empty_title_writes_no_line :
    Terminal.line ⟨80, 24⟩ [] = some []
      ∧ ¬ ∃ rows, Terminal.line ⟨80, 24⟩ [] = some rows ∧ 1 ≤ rows.length := by
  have h : Terminal.line ⟨80, 24⟩ [] = some [] := by decide
  refine ⟨h, ?_⟩
  rintro ⟨rows, hr, hlen⟩
  rw [h] at hr
  cases hr
  simp at hlen

/-! ## The claims on `outputEvents` -/

/-- C3: for every list of N events whose start texts are all well-formed and
every width above 6, `outputEvents` returns after writing one separator and
then, in the order of the list, one block per event: the lines of the title,
the lines of weekday and time, one separator.  The separator occurs exactly
N + 1 times among the rows, and it is a bar, `width - 2` dashes and a bar. -/
theorem output_is_separator_then_blocks (unmarshal : List Byte → Option Time)
    (width height : Int) (hw : 6 < width) (items : List Event)
    (hall : ∀ e ∈ items, unmarshal e.Start.DateTime ≠ none) :
    outputEvents unmarshal (some (width, height)) items
        = ⟨Terminal.horizontal ⟨width, height⟩
            :: items.flatMap (eventBlock unmarshal ⟨width, height⟩), .ok⟩
      ∧ (∀ e ∈ items, ∃ t title clock,
          unmarshal e.Start.DateTime = some t
          ∧ Terminal.line ⟨width, height⟩ e.Summary = some title
          ∧ Terminal.line ⟨width, height⟩ (weekdayText t) = some clock
          ∧ eventBlock unmarshal ⟨width, height⟩ e
              = title ++ clock ++ [Terminal.horizontal ⟨width, height⟩])
      ∧ (outputEvents unmarshal (some (width, height)) items).out.count
          (Terminal.horizontal ⟨width, height⟩) = items.length + 1
      ∧ Terminal.horizontal ⟨width, height⟩
          = ascii "|" ++ List.replicate (width - 2).toNat (UInt8.ofNat 45) ++ ascii "|"
      ∧ ((Terminal.horizontal ⟨width, height⟩).length : Int) = width := by
  have hrun : outputEvents unmarshal (some (width, height)) items
      = ⟨Terminal.horizontal ⟨width, height⟩
          :: items.flatMap (eventBlock unmarshal ⟨width, height⟩), .ok⟩ := by
    rw [outputEvents_wide _ _ _ hw, eventsLoop_ok _ _ _ hw _ _ hall]
    rfl
  refine ⟨hrun, ?_, ?_, rfl, ?_⟩
  · intro e he
    obtain ⟨t, ht⟩ := Option.ne_none_iff_exists'.1 (hall e he)
    refine ⟨t, _, _, ht, line_eq_wrapAll _ _ _ hw, line_eq_wrapAll _ _ _ hw, ?_⟩
    simp [eventBlock, ht]
  · rw [hrun]
    simp only [List.count_cons_self]
    rw [count_horizontal_blocks unmarshal ⟨width, height⟩ hw]
  · have e2 : (ascii "|").length = 1 := by decide
    simp only [Terminal.horizontal, List.length_append, List.length_replicate, e2]
    omega

/-- Two events on a terminal 30 wide. -/
theorem output_is_separator_then_blocks_witness :
    outputEvents UnmarshalText (some (30, 24))
        [⟨ascii "Standup", ⟨ascii "2024-03-15T09:05:00-04:00", []⟩⟩,
         ⟨ascii "Lunch", ⟨ascii "2024-03-16T12:30:00Z", []⟩⟩]
      = ⟨[ascii "|----------------------------|",
          ascii "| Standup                    |",
          ascii "|     Friday     09:05       |",
          ascii "|----------------------------|",
          ascii "| Lunch                      |",
          ascii "|     Saturday   12:30       |",
          ascii "|----------------------------|"], .ok⟩
      ∧ (outputEvents UnmarshalText (some (30, 24))
          [⟨ascii "Standup", ⟨ascii "2024-03-15T09:05:00-04:00", []⟩⟩,
           ⟨ascii "Lunch", ⟨ascii "2024-03-16T12:30:00Z", []⟩⟩]).out.count
          (Terminal.horizontal ⟨30, 24⟩) = 2 + 1 := by
  have h := output_is_separator_then_blocks UnmarshalText 30 24 (by decide)
    [⟨ascii "Standup", ⟨ascii "2024-03-15T09:05:00-04:00", []⟩⟩,
     ⟨ascii "Lunch", ⟨ascii "2024-03-16T12:30:00Z", []⟩⟩] (by decide)
  exact ⟨by decide, h.2.2.1⟩

/-- C4: with a terminal whose size is known and whose width is above 6,
`outputEvents` ends in the fatal error for the start time if and only if the
start text of some event of the list is not well-formed, and returns if and
only if all are well-formed; an event whose `Start.DateTime` is empty, as
that of an all-day event is, makes it end in that fatal error. -/
theorem fatal_iff_malformed_start (unmarshal : List Byte → Option Time)
    (width height : Int) (hw : 6 < width) (items : List Event) :
    ((outputEvents unmarshal (some (width, height)) items).exit
          = .fatal "Error with datetime recieved from google API"
        ↔ ∃ e ∈ items, unmarshal e.Start.DateTime = none)
      ∧ ((outputEvents unmarshal (some (width, height)) items).exit = .ok
        ↔ ∀ e ∈ items, unmarshal e.Start.DateTime ≠ none)
      ∧ ((∃ e ∈ items, e.Start.DateTime = []) →
          (outputEvents UnmarshalText (some (width, height)) items).exit
            = .fatal "Error with datetime recieved from google API") := by
  refine ⟨?_, ?_, ?_⟩
  · rw [outputEvents_wide _ _ _ hw]
    exact (eventsLoop_exit unmarshal width height hw items _).1
  · rw [outputEvents_wide _ _ _ hw]
    exact (eventsLoop_exit unmarshal width height hw items _).2
  · rintro ⟨e, he, hempty⟩
    rw [outputEvents_wide _ _ _ hw]
    refine (eventsLoop_exit UnmarshalText width height hw items _).1.2 ⟨e, he, ?_⟩
    rw [hempty]
    decide

/-- A timed event followed by an all-day event, on a terminal 30 wide. -/
theorem fatal_iff_malformed_start_witness :
    (outputEvents UnmarshalText (some (30, 24))
        [⟨ascii "Standup", ⟨ascii "2024-03-15T09:05:00-04:00", []⟩⟩,
         ⟨ascii "Holiday", ⟨[], ascii "2024-03-16"⟩⟩]).exit
      = .fatal "Error with datetime recieved from google API" :=
  (fatal_iff_malformed_start UnmarshalText 30 24 (by decide)
    [⟨ascii "Standup", ⟨ascii "2024-03-15T09:05:00-04:00", []⟩⟩,
     ⟨ascii "Holiday", ⟨[], ascii "2024-03-16"⟩⟩]).2.2
    ⟨⟨ascii "Holiday", ⟨[], ascii "2024-03-16"⟩⟩, by decide, rfl⟩

/-- C5, as amended: when `outputEvents` ends in a fatal error of the terminal
(its size is not known, or it is too narrow) it has written nothing; when it
ends in the fatal error for a start time, it has written the top separator,
the whole blocks of the events before the first one whose start text is not
well-formed, and the title lines of that event.  Every fatal end is one of
the two: nothing written, or the start-time error after rows were written. -/
theorem output_before_abort (unmarshal : List Byte → Option Time)
    (size : Option (Int × Int)) (items : List Event) :
    (∀ msg, newTerminal size = .error msg →
        outputEvents unmarshal size items = ⟨[], .fatal msg⟩)
      ∧ (∀ width height pre e post, size = some (width, height) → 6 < width →
          items = pre ++ e :: post →
          (∀ x ∈ pre, unmarshal x.Start.DateTime ≠ none) →
          unmarshal e.Start.DateTime = none →
          ∃ title, Terminal.line ⟨width, height⟩ e.Summary = some title
            ∧ outputEvents unmarshal size items
              = ⟨Terminal.horizontal ⟨width, height⟩
                  :: (pre.flatMap (eventBlock unmarshal ⟨width, height⟩) ++ title),
                .fatal "Error with datetime recieved from google API"⟩)
      ∧ (∀ msg, (outputEvents unmarshal size items).exit = .fatal msg →
          (newTerminal size = .error msg ∧ (outputEvents unmarshal size items).out = [])
          ∨ (msg = "Error with datetime recieved from google API"
              ∧ (outputEvents unmarshal size items).out ≠ [])) := by
  refine ⟨?_, ?_, ?_⟩
  · intro msg h
    simp [outputEvents, h]
  · rintro width height pre e post rfl hw rfl hpre he
    refine ⟨_, line_eq_wrapAll _ _ _ hw, ?_⟩
    rw [outputEvents_wide _ _ _ hw, eventsLoop_fatal _ _ _ hw e post he pre _ hpre]
    simp
  · intro msg hmsg
    cases hsize : newTerminal size with
    | error m =>
      left
      have hrun : outputEvents unmarshal size items = ⟨[], .fatal m⟩ := by
        simp [outputEvents, hsize]
      rw [hrun] at hmsg ⊢
      simp only [Exit.fatal.injEq] at hmsg
      exact ⟨by rw [hmsg], rfl⟩
    | ok term =>
      right
      obtain ⟨width, height, rfl, hw⟩ : ∃ width height, size = some (width, height) ∧ 6 < width := by
        cases size with
        | none => simp [newTerminal] at hsize
        | some wh =>
          obtain ⟨width, height⟩ := wh
          refine ⟨width, height, rfl, ?_⟩
          by_contra hc
          simp [newTerminal, not_lt.1 hc] at hsize
      rw [outputEvents_wide _ _ _ hw] at hmsg ⊢
      obtain ⟨hfatal, hok⟩ := eventsLoop_exit unmarshal width height hw items
        [Terminal.horizontal ⟨width, height⟩]
      by_cases hbad : ∃ e ∈ items, unmarshal e.Start.DateTime = none
      · obtain ⟨pre, e, post, rfl, hpre, he⟩ := first_malformed unmarshal items hbad
        rw [hfatal.2 hbad] at hmsg
        simp only [Exit.fatal.injEq] at hmsg
        refine ⟨hmsg.symm, ?_⟩
        rw [eventsLoop_fatal _ _ _ hw e post he pre _ hpre]
        simp
      · have hall : ∀ e ∈ items, unmarshal e.Start.DateTime ≠ none := by
          intro e he hnone
          exact hbad ⟨e, he, hnone⟩
        rw [hok.2 hall] at hmsg
        cases hmsg

/-- A terminal 6 wide: nothing is written.  A terminal 10 wide and an
all-day event after a timed one: the rows up to its title are written. -/
theorem output_before_abort_witness :
    outputEvents UnmarshalText (some (6, 24)) [⟨ascii "A", ⟨[], ascii "2024-03-15"⟩⟩]
        = ⟨[], .fatal "Terminal too narrow"⟩
      ∧ ∃ title, Terminal.line ⟨30, 24⟩ (ascii "Holiday") = some title
        ∧ outputEvents UnmarshalText (some (30, 24))
            ([⟨ascii "Standup", ⟨ascii "2024-03-15T09:05:00-04:00", []⟩⟩]
              ++ ⟨ascii "Holiday", ⟨[], ascii "2024-03-16"⟩⟩ :: [])
          = ⟨Terminal.horizontal ⟨30, 24⟩
              :: (([⟨ascii "Standup", ⟨ascii "2024-03-15T09:05:00-04:00", []⟩⟩] : List Event).flatMap
                    (eventBlock UnmarshalText ⟨30, 24⟩) ++ title),
            .fatal "Error with datetime recieved from google API"⟩ :=
  ⟨(output_before_abort UnmarshalText (some (6, 24)) _).1 _ rfl,
   (output_before_abort UnmarshalText (some (30, 24)) _).2.1 30 24
      [⟨ascii "Standup", ⟨ascii "2024-03-15T09:05:00-04:00", []⟩⟩]
      ⟨ascii "Holiday", ⟨[], ascii "2024-03-16"⟩⟩ [] rfl (by decide) rfl (by decide) (by decide)⟩

/-- C5 as stated fails: one all-day event on a terminal 10 wide; the run ends
in a fatal error after the top separator and the title line were written. -/
theorem partial_output_before_fatal :
    outputEvents UnmarshalText (some (10, 24)) [⟨ascii "A", ⟨[], ascii "2024-03-15"⟩⟩]
        = ⟨[ascii "|--------|", ascii "| A      |"],
            .fatal "Error with datetime recieved from google API"⟩
      ∧ (outputEvents UnmarshalText (some (10, 24))
          [⟨ascii "A", ⟨[], ascii "2024-03-15"⟩⟩]).out ≠ [] := by
  decide

/-- C6: with a width of 6 or less `newTerminal` ends in a fatal error and
`outputEvents` has written nothing, whatever the events; with a known size
and a width above 6 `newTerminal` returns the width and height it was
given. -/
theorem narrow_terminal_writes_nothing (unmarshal : List Byte → Option Time)
    (width height : Int) (items : List Event) :
    (width ≤ 6 →
        newTerminal (some (width, height)) = .error "Terminal too narrow"
        ∧ outputEvents unmarshal (some (width, height)) items
            = ⟨[], .fatal "Terminal too narrow"⟩)
      ∧ (6 < width → newTerminal (some (width, height)) = .ok ⟨width, height⟩) := by
  refine ⟨?_, ?_⟩
  · intro h
    simp [outputEvents, newTerminal, h]
  · intro h
    simp [newTerminal, not_le.2 h]

/-- Widths 6 and 7. -/
theorem narrow_terminal_writes_nothing_witness :
    (newTerminal (some (6, 24)) = .error "Terminal too narrow"
      ∧ outputEvents UnmarshalText (some (6, 24))
          [⟨ascii "Standup", ⟨ascii "2024-03-15T09:05:00-04:00", []⟩⟩]
          = ⟨[], .fatal "Terminal too narrow"⟩)
      ∧ newTerminal (some (7, 24)) = .ok ⟨7, 24⟩ :=
  ⟨(narrow_terminal_writes_nothing UnmarshalText 6 24 _).1 (by decide),
   (narrow_terminal_writes_nothing UnmarshalText 7 24 []).2 (by decide)⟩

/-- C8, as amended: for every event with a well-formed start text, the text
of its weekday line is four spaces, the name of the weekday filled with
spaces to exactly 10 characters (`pad` never cuts), one space, and the hour
and minute as two digits each with a colon between; the event is written as
its title lines, the lines of that text and a separator.  For the start text
`2024-03-15T09:05:00-04:00` the text is `    Friday     09:05`. -/
theorem weekday_line_content (unmarshal : List Byte → Option Time) (e : Event) (t : Time)
    (width height : Int) (hw : 6 < width) (ht : unmarshal e.Start.DateTime = some t) :
    weekdayText t
        = ascii "    "
          ++ (Weekday.String t.Weekday
              ++ List.replicate (10 - (Weekday.String t.Weekday).length) (UInt8.ofNat 32))
          ++ ascii " "
          ++ [UInt8.ofNat (48 + t.Clock.1 / 10), UInt8.ofNat (48 + t.Clock.1 % 10)]
          ++ ascii ":"
          ++ [UInt8.ofNat (48 + t.Clock.2.1 / 10), UInt8.ofNat (48 + t.Clock.2.1 % 10)]
      ∧ longDayNames.get? t.Weekday = some (Weekday.String t.Weekday)
      ∧ (Weekday.String t.Weekday
          ++ List.replicate (10 - (Weekday.String t.Weekday).length) (UInt8.ofNat 32)).length = 10
      ∧ (∃ title clock, Terminal.line ⟨width, height⟩ e.Summary = some title
          ∧ Terminal.line ⟨width, height⟩ (weekdayText t) = some clock
          ∧ outputEvents unmarshal (some (width, height)) [e]
            = ⟨[Terminal.horizontal ⟨width, height⟩] ++ title ++ clock
                ++ [Terminal.horizontal ⟨width, height⟩], .ok⟩)
      ∧ (∃ t₀, UnmarshalText (ascii "2024-03-15T09:05:00-04:00") = some t₀
          ∧ weekdayText t₀ = ascii "    Friday     09:05") := by
  obtain ⟨hname, _, hpad, hlen⟩ := weekday_field t.weekday
  refine ⟨?_, hname, ?_, ?_, ⟨⟨5, 9, 5, 0⟩, by decide, by decide⟩⟩
  · simp only [weekdayText, Time.Clock, Time.Weekday, hpad, fmt02d_hour, fmt02d_minute]
  · unfold Time.Weekday
    rw [← hpad]; exact hlen
  · refine ⟨_, _, line_eq_wrapAll _ _ _ hw, line_eq_wrapAll _ _ _ hw, ?_⟩
    rw [outputEvents_wide _ _ _ hw, eventsLoop_ok _ _ _ hw]
    · simp [eventBlock, ht]
    · intro x hx
      rw [List.mem_singleton.1 hx, ht]
      simp

/-- The start text of the specification, on a terminal 40 wide. -/
theorem weekday_line_content_witness :
    ∃ title clock, Terminal.line ⟨40, 24⟩ (ascii "Standup") = some title
      ∧ Terminal.line ⟨40, 24⟩ (weekdayText ⟨5, 9, 5, 0⟩) = some clock
      ∧ outputEvents UnmarshalText (some (40, 24))
          [⟨ascii "Standup", ⟨ascii "2024-03-15T09:05:00-04:00", []⟩⟩]
        = ⟨[Terminal.horizontal ⟨40, 24⟩] ++ title ++ clock
            ++ [Terminal.horizontal ⟨40, 24⟩], .ok⟩ :=
  (weekday_line_content UnmarshalText
    ⟨ascii "Standup", ⟨ascii "2024-03-15T09:05:00-04:00", []⟩⟩ ⟨5, 9, 5, 0⟩ 40 24
    (by decide) (by decide)).2.2.2.1

set_option maxRecDepth 100000 in
/-- C8 as stated fails: for the start text `2024-03-15T09:05:00-04:00` the
text of the weekday line is not the 10-character field followed by `HH:MM`,
and `Friday    09:05` does not occur in what is written for the event on a
terminal 40 wide; the row reads `|     Friday     09:05                 |`. -/
theorem weekday_line_not_as_stated :
    UnmarshalText (ascii "2024-03-15T09:05:00-04:00") = some ⟨5, 9, 5, 0⟩
      ∧ weekdayText ⟨5, 9, 5, 0⟩ ≠ pad (Weekday.String 5) 10 ++ fmt02d 9 ++ ascii ":" ++ fmt02d 5
      ∧ weekdayText ⟨5, 9, 5, 0⟩ ≠ ascii "Friday    09:05"
      ∧ (outputEvents UnmarshalText (some (40, 24))
          [⟨ascii "Standup", ⟨ascii "2024-03-15T09:05:00-04:00", []⟩⟩]).out
        = [ascii "|--------------------------------------|",
           ascii "| Standup                              |",
           ascii "|     Friday     09:05                 |",
           ascii "|--------------------------------------|"]
      ∧ ¬ (ascii "Friday    09:05" <:+: stdout (outputEvents UnmarshalText (some (40, 24))
          [⟨ascii "Standup", ⟨ascii "2024-03-15T09:05:00-04:00", []⟩⟩]).out) := by
  refine ⟨by decide, by decide, by decide, by decide, ?_⟩
  decide

/-- C10: for every well-formed start text, the text handed to `Terminal.line`
for the weekday and time is exactly 20 characters long, the name of the
weekday being shorter than 10 and hour and minute two digits each; it takes
exactly `ceil(20 / (width - 4))` lines, which is one line if and only if the
width is 24 or more, and several lines for the widths 7 to 23. -/
theorem weekday_text_is_20_long (unmarshal : List Byte → Option Time) (e : Event) (t : Time)
    (width height : Int) (hw : 6 < width) (ht : unmarshal e.Start.DateTime = some t) :
    (Weekday.String t.Weekday).length < 10
      ∧ (fmt02d t.Clock.1).length = 2
      ∧ (fmt02d t.Clock.2.1).length = 2
      ∧ (weekdayText t).length = 20
      ∧ ∃ title clock, Terminal.line ⟨width, height⟩ e.Summary = some title
          ∧ Terminal.line ⟨width, height⟩ (weekdayText t) = some clock
          ∧ outputEvents unmarshal (some (width, height)) [e]
            = ⟨[Terminal.horizontal ⟨width, height⟩] ++ title ++ clock
                ++ [Terminal.horizontal ⟨width, height⟩], .ok⟩
          ∧ clock.length = ⌈(20 : ℚ) / ((width - 4 : Int) : ℚ)⌉₊
          ∧ (clock.length = 1 ↔ 24 ≤ width)
          ∧ (width ≤ 23 → 2 ≤ clock.length) := by
  obtain ⟨_, hshort, _, _⟩ := weekday_field t.weekday
  obtain ⟨hline, hceil, hdiv⟩ := line_rows (weekdayText t) width height hw
  rw [weekdayText_length] at hceil hdiv
  have hpos : 0 < (width - 4).toNat := by omega
  have h1 := ceilDiv_le_iff 20 (width - 4).toNat 1 hpos
  have h0 := ceilDiv_le_iff 20 (width - 4).toNat 0 hpos
  refine ⟨hshort, ?_, ?_, weekdayText_length t, _, _, line_eq_wrapAll _ _ _ hw, hline, ?_,
    ?_, ?_, ?_⟩
  · simp only [Time.Clock, fmt02d_hour, List.length_cons, List.length_nil]
  · simp only [Time.Clock, fmt02d_minute, List.length_cons, List.length_nil]
  · rw [outputEvents_wide _ _ _ hw, eventsLoop_ok _ _ _ hw]
    · simp [eventBlock, ht]
    · intro x hx
      rw [List.mem_singleton.1 hx, ht]
      simp
  · exact_mod_cast hceil
  · rw [hdiv]; omega
  · intro h23
    rw [hdiv]; omega

/-- The start text of the specification on terminals 24 and 23 wide: one
line, and two lines. -/
theorem weekday_text_is_20_long_witness :
    (∃ title clock, Terminal.line ⟨24, 24⟩ (ascii "Standup") = some title
        ∧ Terminal.line ⟨24, 24⟩ (weekdayText ⟨5, 9, 5, 0⟩) = some clock
        ∧ outputEvents UnmarshalText (some (24, 24))
            [⟨ascii "Standup", ⟨ascii "2024-03-15T09:05:00-04:00", []⟩⟩]
          = ⟨[Terminal.horizontal ⟨24, 24⟩] ++ title ++ clock
              ++ [Terminal.horizontal ⟨24, 24⟩], .ok⟩
        ∧ clock.length = ⌈(20 : ℚ) / (((24 : Int) - 4 : Int) : ℚ)⌉₊
        ∧ (clock.length = 1 ↔ (24 : Int) ≤ 24)
        ∧ ((24 : Int) ≤ 23 → 2 ≤ clock.length))
      ∧ Terminal.line ⟨24, 24⟩ (weekdayText ⟨5, 9, 5, 0⟩)
          = some [ascii "|     Friday     09:05 |"]
      ∧ Terminal.line ⟨23, 24⟩ (weekdayText ⟨5, 9, 5, 0⟩)
          = some [ascii "|     Friday     09:0 |", ascii "| 5                   |"] :=
  ⟨(weekday_text_is_20_long UnmarshalText
      ⟨ascii "Standup", ⟨ascii "2024-03-15T09:05:00-04:00", []⟩⟩ ⟨5, 9, 5, 0⟩ 24 24
      (by decide) (by decide)).2.2.2.2,
    by decide, by decide⟩

/-! ## The claim on `getClient` -/

theorem tokenFromFile_effects (w : World) (file : String) :
    (tokenFromFile w file).1.filter Effect.isInteractive = []
      ∧ (tokenFromFile w file).1.filter Effect.isWrite = [] := by
  unfold tokenFromFile
  cases w.osOpen file <;> simp [Effect.isInteractive, Effect.isWrite]

/-- C7, as amended: when `tokenFromFile` returns an error, `getClient` runs
the interactive flow exactly once; when the exchange of the code succeeds and
`cfgDir + "token.json"` can be opened for writing, the token obtained is
written exactly once, to that file, and the client returned uses it; when the
file cannot be opened, the run ends in a fatal error and no token is written.
When the cached token loads without error there is no interactive flow and no
write, and the client returned uses the cached token. -/
theorem getClient_bootstrap (w : World) (cfgDir : String) :
    (∀ code tok, (tokenFromFile w (cfgDir ++ "token.json")).2.2 ≠ none →
        w.scan = .ok code → w.exchange code = .ok tok →
        (getClient w cfgDir).1.filter Effect.isInteractive
            = [.printAuthURL, .scan, .exchange code]
          ∧ (w.osOpenFile (cfgDir ++ "token.json") = none →
              (getClient w cfgDir).1.filter Effect.isWrite
                  = [.encode (cfgDir ++ "token.json") (some tok)]
                ∧ (getClient w cfgDir).2 = .ret ⟨some tok⟩)
          ∧ (∀ err, w.osOpenFile (cfgDir ++ "token.json") = some err →
              (getClient w cfgDir).1.filter Effect.isWrite = []
                ∧ (getClient w cfgDir).2 = .fatal ("Unable to cache oauth token: " ++ err)))
      ∧ (∀ tok, (tokenFromFile w (cfgDir ++ "token.json")).2 = (tok, none) →
          (getClient w cfgDir).1.filter Effect.isInteractive = []
            ∧ (getClient w cfgDir).1.filter Effect.isWrite = []
            ∧ (getClient w cfgDir).2 = .ret ⟨tok⟩) := by
  obtain ⟨hi, hwr⟩ := tokenFromFile_effects w (cfgDir ++ "token.json")
  refine ⟨?_, ?_⟩
  · intro code tok herr hscan hex
    rcases hread : tokenFromFile w (cfgDir ++ "token.json") with ⟨read, cached, err⟩
    rw [hread] at herr hi hwr
    simp only at herr hi hwr
    have hsome : err.isSome = true := Option.isSome_iff_ne_none.2 herr
    refine ⟨?_, ?_, ?_⟩
    · cases hopen : w.osOpenFile (cfgDir ++ "token.json") <;>
        simp [getClient, hread, hsome, getTokenFromWeb, hscan, hex, saveToken, hopen,
          List.filter_append, hi, Effect.isInteractive]
    · intro hopen
      simp [getClient, hread, hsome, getTokenFromWeb, hscan, hex, saveToken, hopen,
        List.filter_append, hwr, Effect.isWrite]
    · intro e hopen
      simp [getClient, hread, hsome, getTokenFromWeb, hscan, hex, saveToken, hopen,
        List.filter_append, hwr, Effect.isWrite]
  · intro tok hcached
    rcases hread : tokenFromFile w (cfgDir ++ "token.json") with ⟨read, cached, err⟩
    rw [hread] at hcached hi hwr
    simp only [Prod.mk.injEq] at hcached hi hwr
    obtain ⟨rfl, rfl⟩ := hcached
    simp [getClient, hread, hi, hwr]

/-- A first run with a writable directory, and a later run. -/
theorem getClient_bootstrap_witness :
    ((getClient (firstRun true) "/home/u/.config/calendar/").1.filter Effect.isInteractive
          = [.printAuthURL, .scan, .exchange "4/code"]
        ∧ ((firstRun true).osOpenFile ("/home/u/.config/calendar/" ++ "token.json") = none →
            (getClient (firstRun true) "/home/u/.config/calendar/").1.filter Effect.isWrite
                = [.encode ("/home/u/.config/calendar/" ++ "token.json")
                    (some ⟨"access", "Bearer", "refresh", "2024-03-15T10:00:00Z"⟩)]
              ∧ (getClient (firstRun true) "/home/u/.config/calendar/").2
                = .ret ⟨some ⟨"access", "Bearer", "refresh", "2024-03-15T10:00:00Z"⟩⟩)
        ∧ (∀ err, (firstRun true).osOpenFile ("/home/u/.config/calendar/" ++ "token.json")
              = some err →
            (getClient (firstRun true) "/home/u/.config/calendar/").1.filter Effect.isWrite = []
              ∧ (getClient (firstRun true) "/home/u/.config/calendar/").2
                = .fatal ("Unable to cache oauth token: " ++ err)))
      ∧ ((getClient laterRun "/home/u/.config/calendar/").1.filter Effect.isInteractive = []
        ∧ (getClient laterRun "/home/u/.config/calendar/").1.filter Effect.isWrite = []
        ∧ (getClient laterRun "/home/u/.config/calendar/").2
          = .ret ⟨some ⟨"access", "Bearer", "refresh", "2024-03-15T10:00:00Z"⟩⟩) :=
  ⟨(getClient_bootstrap (firstRun true) "/home/u/.config/calendar/").1 "4/code"
      ⟨"access", "Bearer", "refresh", "2024-03-15T10:00:00Z"⟩ (by decide) rfl rfl,
   (getClient_bootstrap laterRun "/home/u/.config/calendar/").2
      (some ⟨"access", "Bearer", "refresh", "2024-03-15T10:00:00Z"⟩) rfl⟩

/-- C7 as stated fails: on a first run whose exchange succeeds but whose
token file cannot be opened for writing, `getClient` writes no token and
returns no client. -/
theorem getClient_no_write_when_unwritable :
    (tokenFromFile (firstRun false) "/home/u/.config/calendar/token.json").2.2 ≠ none
      ∧ (firstRun false).scan = .ok "4/code"
      ∧ (firstRun false).exchange "4/code"
          = .ok ⟨"access", "Bearer", "refresh", "2024-03-15T10:00:00Z"⟩
      ∧ getClient (firstRun false) "/home/u/.config/calendar/"
        = ([.openRead "/home/u/.config/calendar/token.json", .printAuthURL, .scan,
            .exchange "4/code", .printSaving "/home/u/.config/calendar/token.json",
            .openTrunc "/home/u/.config/calendar/token.json"],
           .fatal "Unable to cache oauth token: permission denied")
      ∧ (getClient (firstRun false) "/home/u/.config/calendar/").1.filter Effect.isWrite = [] := by
  refine ⟨by decide, rfl, rfl, by decide, by decide⟩

end Calendar
